import Mathlib

/-!
Verification of the indicator engine, warm-up gate and signal evaluator of the
TradingBot_Backtesting repository (`src/TradingBot_Backtesting.py`).

Prices and volumes are modelled as rationals; an undefined (NaN) entry of an
indicator series is `Option.none`.  Repository code (`custom_rsi`'s composition,
`safe_sma`'s guard, `CustomRSIStrategy.next`) is translated directly; the
external library functions it calls (`pandas` rolling mean and division,
`pandas_ta` `rsi`/`sma`/`atr`, `backtesting.lib.crossover`, and the execution
engine's position bookkeeping) are modelled from the specification, as noted on
each definition.
-/

namespace TradingBot

/-- One OHLCV bar: the Open, High, Low, Close, Volume columns kept by
`get_binance_4h_data` (src lines 58-72). -/
structure Bar where
  op : ℚ
  high : ℚ
  low : ℚ
  close : ℚ
  volume : ℚ
deriving DecidableEq

/-- Volume of bar `i` (0 out of range; only consulted in range). -/
def vol (data : List Bar) (i : ℕ) : ℚ :=
  ((data.get? i).map Bar.volume).getD 0

/-- Close of bar `i` (0 out of range; only consulted in range). -/
def closeAt (data : List Bar) (i : ℕ) : ℚ :=
  ((data.get? i).map Bar.close).getD 0

/-- `hlc3` of src line 91: `(High + Low + Close) / 3`, defined when bar `i` exists. -/
def hlc3 (data : List Bar) (i : ℕ) : Option ℚ :=
  (data.get? i).map (fun b => (b.high + b.low + b.close) / 3)

/-- Modelled from the spec: the pandas `Volume.rolling(length).mean()` of src
line 94 — trailing mean over `length` bars inclusive of the current one,
undefined for `i < length - 1` and beyond the data (spec 4.1 Step 2). -/
def volAvg (data : List Bar) (n : ℕ) (i : ℕ) : Option ℚ :=
  if i + 1 < n ∨ data.length ≤ i then none
  else some ((((List.range n).map (fun k => vol data (i - k))).sum) / (n : ℚ))

/-- `normalized_volume` of src line 94: `Volume / volAvg`; per spec 4.1 Step 3 a
zero or undefined rolling average propagates undefined instead of failing. -/
def normalizedVolume (data : List Bar) (n : ℕ) (i : ℕ) : Option ℚ :=
  match volAvg data n i with
  | none => none
  | some v => if v = 0 then none else some (vol data i / v)

/-- The volume-adjusted price `hlc3 * normalized_volume` handed to the RSI
(src line 97), propagating undefined. -/
def adjPrice (data : List Bar) (n : ℕ) (i : ℕ) : Option ℚ :=
  match hlc3 data i, normalizedVolume data n i with
  | some h, some v => some (h * v)
  | _, _ => none

/-- Modelled from the spec: the Wilder running averages of gains and losses of
consecutive changes of a series (spec 4.1 Step 5), as used by `pandas_ta.rsi`.
The first change available is the one into index `n` (the series itself is
undefined before `n - 1`), which seeds the recursion; afterwards
`avg' = (avg * (n - 1) + x) / n`.  Undefined before index `n` and whenever a
required input value is undefined. -/
def wilderGL (adj : ℕ → Option ℚ) (n : ℕ) : ℕ → Option (ℚ × ℚ)
  | 0 => none
  | i + 1 =>
    if i + 1 < n then none
    else if i + 1 = n then
      match adj i, adj (i + 1) with
      | some p, some c => some (max (c - p) 0, max (p - c) 0)
      | _, _ => none
    else
      match wilderGL adj n i, adj i, adj (i + 1) with
      | some gl, some p, some c =>
          some ((gl.1 * ((n : ℚ) - 1) + max (c - p) 0) / (n : ℚ),
                (gl.2 * ((n : ℚ) - 1) + max (p - c) 0) / (n : ℚ))
      | _, _, _ => none

/-- RSI from the Wilder averages: `100 - 100 / (1 + gain / loss)`, with a zero
average loss giving 100 by convention (spec 4.1 Step 5, spec 7). -/
def rsiOfGL : Option (ℚ × ℚ) → Option ℚ
  | none => none
  | some gl => if gl.2 = 0 then some 100 else some (100 - 100 / (1 + gl.1 / gl.2))

/-- `custom_rsi` (src lines 79-99) at index `i`: Wilder RSI (modelled from the
spec) of the volume-adjusted typical price. -/
def rsiFn (data : List Bar) (n : ℕ) (i : ℕ) : Option ℚ :=
  rsiOfGL (wilderGL (adjPrice data n) n i)

/-- `custom_rsi` as a series: one entry per input bar. -/
def custom_rsi (data : List Bar) (n : ℕ) : List (Option ℚ) :=
  (List.range data.length).map (rsiFn data n)

/-- Modelled from the spec: `pandas_ta.sma` — trailing simple moving average
with window `period`, first `period - 1` entries undefined (spec 4.1 Safe SMA,
else branch). -/
def smaCore (close : List ℚ) (period : ℕ) (i : ℕ) : Option ℚ :=
  if i + 1 < period ∨ close.length ≤ i then none
  else some ((((List.range period).map (fun k => close.getD (i - k) 0)).sum) / (period : ℚ))

/-- `safe_sma` (src lines 102-115): an all-undefined series of the input's
length when the input is shorter than the period, otherwise the plain SMA. -/
def safe_sma (close : List ℚ) (period : ℕ) : List (Option ℚ) :=
  if close.length < period then List.replicate close.length none
  else (List.range close.length).map (smaCore close period)

/-- `safe_sma` of the Close column as an indexed function, as the strategy
consumes it (src line 146). -/
def smaFn (data : List Bar) (period : ℕ) (i : ℕ) : Option ℚ :=
  if data.length < period then none else smaCore (data.map Bar.close) period i

/-- True range (spec 4.1 ATR): `TR[0] = High - Low`;
`TR[i] = max (High - Low) (max |High - prevClose| |Low - prevClose|)`. -/
def trAt (data : List Bar) : ℕ → Option ℚ
  | 0 => (data.get? 0).map (fun b => b.high - b.low)
  | i + 1 =>
    match data.get? (i + 1), data.get? i with
    | some b, some pb =>
        some (max (b.high - b.low) (max |b.high - pb.close| |b.low - pb.close|))
    | _, _ => none

/-- Sum of `TR[0..k-1]`, undefined if any term is undefined. -/
def sumTR (data : List Bar) : ℕ → Option ℚ
  | 0 => some 0
  | k + 1 =>
    match sumTR data k, trAt data k with
    | some s, some t => some (s + t)
    | _, _ => none

/-- Modelled from the spec: `pandas_ta.atr` — Wilder-smoothed true range with
period `p`, seeded at index `p - 1` with the simple average of the first `p`
true ranges; the first `p - 1` entries are undefined (spec 4.1 ATR). -/
def atrW (data : List Bar) (p : ℕ) : ℕ → Option ℚ
  | 0 => if p = 1 then (sumTR data 1).map (fun s => s / (1 : ℚ)) else none
  | i + 1 =>
    if i + 2 < p then none
    else if i + 2 = p then (sumTR data p).map (fun s => s / (p : ℚ))
    else
      match atrW data p i, trAt data (i + 1) with
      | some a, some t => some ((a * ((p : ℚ) - 1) + t) / (p : ℚ))
      | _, _ => none

/-- ATR as an indexed function, as the strategy consumes it (src lines 149-153). -/
def atrFn (data : List Bar) (p : ℕ) (i : ℕ) : Option ℚ :=
  atrW data p i

/-- ATR as a series: one entry per input bar. -/
def ta_atr (data : List Bar) (p : ℕ) : List (Option ℚ) :=
  (List.range data.length).map (atrFn data p)

/-- The strategy parameters of `CustomRSIStrategy` (src lines 127-136). -/
structure StrategyConfig where
  rsi_period : ℕ
  sma_period : ℕ
  atr_period : ℕ
  atr_multiplier_sl : ℚ
  atr_multiplier_tp : ℚ
  buy_threshold : ℚ
  sell_threshold : ℚ
deriving DecidableEq

/-- The default parameter values of src lines 128-136. -/
def defaultConfig : StrategyConfig :=
  ⟨21, 50, 14, 3 / 2, 5, 55, 45⟩

/-- The intent the signal evaluator emits for one bar: open a long with a
stop-loss and take-profit, close the long, or do nothing (spec 4.3). -/
inductive Intent where
  | openLong (sl tp : ℚ)
  | closeLong
  | hold
deriving DecidableEq

/-- `true` exactly on the open intents. -/
def Intent.isOpen : Intent → Bool
  | openLong _ _ => true
  | _ => false

/-- Modelled from the spec: `backtesting.lib.crossover a b` — series `a` just
crossed above series `b` at bar `i`: previous value `≤`, current value `>`,
and `false` whenever any of the four values is undefined or there is no
previous bar (spec 4.3: `RSI[i-1] ≤ threshold AND RSI[i] > threshold`; equality
on the current bar is non-crossing). -/
def crossover (a b : ℕ → Option ℚ) : ℕ → Bool
  | 0 => false
  | i + 1 =>
    match a i, b i, a (i + 1), b (i + 1) with
    | some ap, some bp, some ac, some bc => decide (ap ≤ bp ∧ bc < ac)
    | _, _, _, _ => false

/-- A numeric threshold viewed as a constant series, as `crossover` receives it
when the source passes a plain number (src lines 170 and 174). -/
def constSeries (q : ℚ) : ℕ → Option ℚ := fun _ => some q

/-- The warm-up gate of src line 160:
`if np.isnan(self.sma[-1]) or np.isnan(self.atr[-1]): return`. -/
def ready (sma atr : ℕ → Option ℚ) (i : ℕ) : Bool :=
  !((sma i).isNone || (atr i).isNone)

/-- `CustomRSIStrategy.next` (src lines 155-175) as a pure per-bar function:
given the three indicator series, the close prices, the current position state
(`isLong`) and the bar index, it returns the single intent for that bar.
The outer match is the NaN guard of src line 160; `stop_loss` / `take_profit`
are src lines 166-167; the two branches are src lines 170-175 in their source
order (buy first, then the `elif` sell). -/
def nextIntent (cfg : StrategyConfig) (rsi sma atr : ℕ → Option ℚ)
    (close : ℕ → ℚ) (isLong : Bool) (i : ℕ) : Intent :=
  match sma i, atr i with
  | some s, some a =>
    let price := close i
    let stop_loss := price - cfg.atr_multiplier_sl * a
    let take_profit := price + cfg.atr_multiplier_tp * a
    if !isLong && crossover rsi (constSeries cfg.buy_threshold) i && decide (s < price) then
      Intent.openLong stop_loss take_profit
    else if isLong && crossover (constSeries cfg.sell_threshold) rsi i then
      Intent.closeLong
    else Intent.hold
  | _, _ => Intent.hold

/-- How the externally owned position state evolves under an intent: the
execution engine opens on an open intent and closes on a close intent, and may
additionally close a held position on its own (stop-loss or take-profit hit),
which the oracle flag `engineClose` models.  A long position is only ever
entered through an open intent (spec 3, PositionState). -/
def stepState (pos : Bool) (intent : Intent) (engineClose : Bool) : Bool :=
  match intent with
  | .openLong _ _ => !engineClose
  | .closeLong => false
  | .hold => pos && !engineClose

/-- The position state just before bar `i` of a run of the strategy over
`data`, starting flat, with the engine's own closes given by `oracle`. -/
def posAt (data : List Bar) (cfg : StrategyConfig) (oracle : ℕ → Bool) : ℕ → Bool
  | 0 => false
  | i + 1 =>
    stepState (posAt data cfg oracle i)
      (nextIntent cfg (rsiFn data cfg.rsi_period) (smaFn data cfg.sma_period)
        (atrFn data cfg.atr_period) (closeAt data) (posAt data cfg oracle i) i)
      (oracle i)

/-- The intent the strategy emits at bar `i` of a run over `data`. -/
def intentAt (data : List Bar) (cfg : StrategyConfig) (oracle : ℕ → Bool) (i : ℕ) : Intent :=
  nextIntent cfg (rsiFn data cfg.rsi_period) (smaFn data cfg.sma_period)
    (atrFn data cfg.atr_period) (closeAt data) (posAt data cfg oracle i) i

/-- The spec's crossover precondition, spelled out on the values (spec 4.3,
open transition): both values defined, previous `≤` threshold, current `>`. -/
def CrossAbove (s : ℕ → Option ℚ) (t : ℚ) (i : ℕ) : Prop :=
  ∃ j r1 r2, i = j + 1 ∧ s j = some r1 ∧ s (j + 1) = some r2 ∧ r1 ≤ t ∧ t < r2

/-- The spec's crossunder precondition, spelled out on the values (spec 4.3,
close transition): both values defined, previous `≥` threshold, current `<`. -/
def CrossBelow (s : ℕ → Option ℚ) (t : ℚ) (i : ℕ) : Prop :=
  ∃ j r1 r2, i = j + 1 ∧ s j = some r1 ∧ s (j + 1) = some r2 ∧ t ≤ r1 ∧ r2 < t

/-- A small concrete market exercising the pipeline in closed theorems: a flat
bar, a down bar, a strong up bar (the RSI jumps above the buy threshold with
the close above the SMA), then a crash (the RSI falls below the sell
threshold). -/
def demoData : List Bar :=
  [⟨10, 10, 10, 10, 1⟩, ⟨5, 5, 5, 5, 1⟩, ⟨20, 20, 20, 20, 1⟩, ⟨1, 1, 1, 1, 1⟩]

/-- A small parameterisation (periods 1, 2 and 1; the default multipliers and
thresholds) whose warm-up fits inside the four demo bars. -/
def demoConfig : StrategyConfig :=
  ⟨1, 2, 1, 3 / 2, 5, 55, 45⟩

/-- An execution engine that never closes a position on its own. -/
def noEngineClose : ℕ → Bool := fun _ => false

/-- Two demo bars shared by `demoAlt`. -/
def demoTwo : List Bar :=
  [⟨10, 10, 10, 10, 1⟩, ⟨5, 5, 5, 5, 1⟩]

/-- A history agreeing with `demoTwo` on bars 0 and 1 but with one more bar. -/
def demoAlt : List Bar :=
  [⟨10, 10, 10, 10, 1⟩, ⟨5, 5, 5, 5, 1⟩, ⟨7, 8, 6, 7, 2⟩]

/-! ### Shared lemmas -/

theorem crossover_const_right_iff (a : ℕ → Option ℚ) (t : ℚ) (i : ℕ) :
    crossover a (constSeries t) i = true ↔ CrossAbove a t i := by
  cases i with
  | zero => simp [crossover, CrossAbove]
  | succ j =>
    simp only [crossover, constSeries]
    cases ha : a j with
    | none => simp [CrossAbove, ha]
    | some r1 =>
      cases hb : a (j + 1) with
      | none => simp [CrossAbove, ha, hb]
      | some r2 =>
        simp only [decide_eq_true_eq, CrossAbove]
        constructor
        · rintro ⟨h1, h2⟩
          exact ⟨j, r1, r2, rfl, ha, hb, h1, h2⟩
        · rintro ⟨j', r1', r2', hj, h1, h2, h3, h4⟩
          obtain rfl : j' = j := Nat.succ_injective hj.symm
          rw [ha] at h1
          rw [hb] at h2
          obtain rfl : r1' = r1 := (Option.some_injective _ h1).symm
          obtain rfl : r2' = r2 := (Option.some_injective _ h2).symm
          exact ⟨h3, h4⟩

theorem crossover_const_left_iff (a : ℕ → Option ℚ) (t : ℚ) (i : ℕ) :
    crossover (constSeries t) a i = true ↔ CrossBelow a t i := by
  cases i with
  | zero => simp [crossover, CrossBelow]
  | succ j =>
    simp only [crossover, constSeries]
    cases ha : a j with
    | none => simp [CrossBelow, ha]
    | some r1 =>
      cases hb : a (j + 1) with
      | none => simp [CrossBelow, ha, hb]
      | some r2 =>
        simp only [decide_eq_true_eq, CrossBelow]
        constructor
        · rintro ⟨h1, h2⟩
          exact ⟨j, r1, r2, rfl, ha, hb, h1, h2⟩
        · rintro ⟨j', r1', r2', hj, h1, h2, h3, h4⟩
          obtain rfl : j' = j := Nat.succ_injective hj.symm
          rw [ha] at h1
          rw [hb] at h2
          obtain rfl : r1' = r1 := (Option.some_injective _ h1).symm
          obtain rfl : r2' = r2 := (Option.some_injective _ h2).symm
          exact ⟨h3, h4⟩

theorem nextIntent_hold_of_not_ready (cfg : StrategyConfig) (rsi sma atr : ℕ → Option ℚ)
    (close : ℕ → ℚ) (isLong : Bool) (i : ℕ) (h : ready sma atr i = false) :
    nextIntent cfg rsi sma atr close isLong i = Intent.hold := by
  unfold ready at h
  unfold nextIntent
  cases hs : sma i <;> cases ha : atr i <;> simp [hs, ha] at h ⊢

theorem nextIntent_open_iff (cfg : StrategyConfig) (rsi sma atr : ℕ → Option ℚ)
    (close : ℕ → ℚ) (isLong : Bool) (i : ℕ) (sl tp : ℚ) :
    nextIntent cfg rsi sma atr close isLong i = Intent.openLong sl tp ↔
      isLong = false ∧ ∃ s a, sma i = some s ∧ atr i = some a ∧
        crossover rsi (constSeries cfg.buy_threshold) i = true ∧ s < close i ∧
        sl = close i - cfg.atr_multiplier_sl * a ∧ tp = close i + cfg.atr_multiplier_tp * a := by
  unfold nextIntent
  cases hs : sma i with
  | none => simp [hs]
  | some s =>
    cases ha : atr i with
    | none => simp [ha]
    | some a =>
      cases isLong with
      | true =>
        rcases Bool.eq_false_or_eq_true (crossover (constSeries cfg.sell_threshold) rsi i)
          with hcr | hcr <;> simp [hs, ha, hcr]
      | false =>
        rcases Bool.eq_false_or_eq_true (crossover rsi (constSeries cfg.buy_threshold) i)
          with hcr | hcr
        · by_cases hlt : s < close i
          · simp [hs, ha, hcr, hlt, eq_comm]
          · simp [hs, ha, hcr, hlt]
        · simp [hs, ha, hcr]

theorem nextIntent_close_iff (cfg : StrategyConfig) (rsi sma atr : ℕ → Option ℚ)
    (close : ℕ → ℚ) (isLong : Bool) (i : ℕ) :
    nextIntent cfg rsi sma atr close isLong i = Intent.closeLong ↔
      isLong = true ∧ ∃ s a, sma i = some s ∧ atr i = some a ∧
        crossover (constSeries cfg.sell_threshold) rsi i = true := by
  unfold nextIntent
  cases hs : sma i with
  | none => simp [hs]
  | some s =>
    cases ha : atr i with
    | none => simp [ha]
    | some a =>
      cases isLong with
      | true =>
        rcases Bool.eq_false_or_eq_true (crossover (constSeries cfg.sell_threshold) rsi i)
          with hcr | hcr <;> simp [hs, ha, hcr]
      | false =>
        rcases Bool.eq_false_or_eq_true (crossover rsi (constSeries cfg.buy_threshold) i)
          with hcr | hcr <;> by_cases hlt : s < close i <;> simp [hs, ha, hcr, hlt]

theorem smaFn_isSome_iff (data : List Bar) (p i : ℕ) :
    (smaFn data p i).isSome ↔ p ≤ data.length ∧ p ≤ i + 1 ∧ i < data.length := by
  unfold smaFn smaCore
  by_cases h1 : data.length < p
  · simp only [h1, if_true]
    simp only [Option.isSome_none, Bool.false_eq_true, false_iff]
    omega
  · by_cases h2 : i + 1 < p ∨ (data.map Bar.close).length ≤ i
    · simp only [h1, if_false, h2, if_true]
      simp only [List.length_map] at h2
      simp only [Option.isSome_none, Bool.false_eq_true, false_iff]
      omega
    · simp only [h1, if_false, h2, if_true]
      simp only [List.length_map] at h2
      simp only [Option.isSome_some, true_iff]
      omega

theorem get?_some_lt {data : List Bar} {i : ℕ} {b : Bar} (h : data.get? i = some b) :
    i < data.length := by
  by_contra hc
  rw [List.get?_eq_none.mpr (by omega)] at h
  exact Option.noConfusion h

theorem trAt_isSome_iff (data : List Bar) (i : ℕ) :
    (trAt data i).isSome ↔ i < data.length := by
  cases i with
  | zero =>
    cases h : data.get? 0 with
    | none =>
      simp only [trAt, h, Option.map_none', Option.isSome_none, Bool.false_eq_true, false_iff]
      have := List.get?_eq_none.mp h
      omega
    | some b =>
      simp only [trAt, h, Option.map_some', Option.isSome_some, true_iff]
      exact get?_some_lt h
  | succ i =>
    cases h1 : data.get? (i + 1) with
    | none =>
      have := List.get?_eq_none.mp h1
      cases h2 : data.get? i <;>
        simp only [trAt, h1, h2, Option.isSome_none, Bool.false_eq_true, false_iff] <;>
        omega
    | some b =>
      have hlen := get?_some_lt h1
      cases h2 : data.get? i with
      | none =>
        have := List.get?_eq_none.mp h2
        exact absurd hlen (by omega)
      | some pb =>
        simp only [trAt, h1, h2, Option.isSome_some, true_iff]
        omega

theorem sumTR_isSome_iff (data : List Bar) (k : ℕ) :
    (sumTR data k).isSome ↔ k ≤ data.length := by
  induction k with
  | zero => simp [sumTR]
  | succ k ih =>
    unfold sumTR
    cases h1 : sumTR data k with
    | none =>
      rw [h1] at ih
      simp only [Option.isSome_none, Bool.false_eq_true, false_iff] at ih ⊢
      omega
    | some s =>
      rw [h1] at ih
      simp only [Option.isSome_some, true_iff] at ih
      cases h2 : trAt data k with
      | none =>
        have := trAt_isSome_iff data k
        rw [h2] at this
        simp only [Option.isSome_none, Bool.false_eq_true, false_iff] at this
        simp only [Option.isSome_none, Bool.false_eq_true, false_iff]
        omega
      | some t =>
        have := trAt_isSome_iff data k
        rw [h2] at this
        simp only [Option.isSome_some, true_iff] at this
        simp only [Option.isSome_some, true_iff]
        omega

theorem atrW_isSome_iff (data : List Bar) (p i : ℕ) :
    (atrW data p i).isSome ↔ 1 ≤ p ∧ p ≤ i + 1 ∧ i < data.length := by
  induction i with
  | zero =>
    unfold atrW
    by_cases hp : p = 1
    · subst hp
      rw [if_pos rfl, Option.isSome_map', sumTR_isSome_iff]
      omega
    · rw [if_neg hp]
      simp only [Option.isSome_none, Bool.false_eq_true, false_iff]
      omega
  | succ i ih =>
    unfold atrW
    by_cases h1 : i + 2 < p
    · rw [if_pos h1]
      simp only [Option.isSome_none, Bool.false_eq_true, false_iff]
      omega
    · by_cases h2 : i + 2 = p
      · rw [if_neg h1, if_pos h2, Option.isSome_map', sumTR_isSome_iff]
        omega
      · rw [if_neg h1, if_neg h2]
        cases h3 : atrW data p i with
        | none =>
          rw [h3] at ih
          simp only [Option.isSome_none, Bool.false_eq_true, false_iff] at ih
          cases h4 : trAt data (i + 1) <;>
            simp only [Option.isSome_none, Option.isSome_some, Bool.false_eq_true, false_iff] <;>
            omega
        | some a =>
          rw [h3] at ih
          simp only [Option.isSome_some, true_iff] at ih
          cases h4 : trAt data (i + 1) with
          | none =>
            have := trAt_isSome_iff data (i + 1)
            rw [h4] at this
            simp only [Option.isSome_none, Bool.false_eq_true, false_iff] at this
            simp only [Option.isSome_none, Bool.false_eq_true, false_iff]
            omega
          | some t =>
            have := trAt_isSome_iff data (i + 1)
            rw [h4] at this
            simp only [Option.isSome_some, true_iff] at this
            simp only [Option.isSome_some, true_iff]
            omega

theorem wilderGL_none_of_adj_none (adj : ℕ → Option ℚ) (n i : ℕ) (h : adj i = none) :
    wilderGL adj n i = none := by
  cases i with
  | zero => simp [wilderGL]
  | succ i =>
    by_cases h1 : i + 1 < n
    · simp only [wilderGL]
      rw [if_pos h1]
    · by_cases h2 : i + 1 = n
      · simp only [wilderGL]
        rw [if_neg h1, if_pos h2, h]
        cases adj i <;> rfl
      · simp only [wilderGL]
        rw [if_neg h1, if_neg h2, h]
        cases wilderGL adj n i <;> cases adj i <;> rfl

theorem wilderGL_isSome_imp (adj : ℕ → Option ℚ) (n i : ℕ)
    (h : (wilderGL adj n i).isSome) : n ≤ i ∧ 1 ≤ i ∧ (adj i).isSome := by
  cases i with
  | zero => simp [wilderGL] at h
  | succ i =>
    by_cases h1 : i + 1 < n
    · simp only [wilderGL] at h
      rw [if_pos h1] at h
      simp at h
    · by_cases h2 : i + 1 = n
      · simp only [wilderGL] at h
        rw [if_neg h1, if_pos h2] at h
        cases ha : adj i <;> cases hb : adj (i + 1) <;> rw [ha, hb] at h <;>
          simp at h <;> simp [hb] <;> omega
      · simp only [wilderGL] at h
        rw [if_neg h1, if_neg h2] at h
        cases hg : wilderGL adj n i <;> cases ha : adj i <;> cases hb : adj (i + 1) <;>
          rw [hg, ha, hb] at h <;> simp at h <;> simp [hb] <;> omega

theorem wilderGL_isSome_of (adj : ℕ → Option ℚ) (n i : ℕ) (hn : 1 ≤ n) (hi : n ≤ i)
    (hdef : ∀ j, n - 1 ≤ j → j ≤ i → (adj j).isSome) : (wilderGL adj n i).isSome := by
  induction i with
  | zero => omega
  | succ i ih =>
    obtain ⟨p, hp⟩ := Option.isSome_iff_exists.mp (hdef i (by omega) (by omega))
    obtain ⟨c, hc⟩ := Option.isSome_iff_exists.mp (hdef (i + 1) (by omega) (by omega))
    by_cases h2 : i + 1 = n
    · simp only [wilderGL]
      rw [if_neg (by omega), if_pos h2, hp, hc]
      rfl
    · have hg := ih (by omega) (fun j hj1 hj2 => hdef j hj1 (by omega))
      obtain ⟨gl, hgl⟩ := Option.isSome_iff_exists.mp hg
      simp only [wilderGL]
      rw [if_neg (by omega), if_neg h2, hgl, hp, hc]
      rfl

theorem rsiOfGL_isSome (o : Option (ℚ × ℚ)) : (rsiOfGL o).isSome = o.isSome := by
  cases o with
  | none => rfl
  | some gl =>
    simp only [rsiOfGL]
    by_cases h : gl.2 = 0
    · rw [if_pos h]
      rfl
    · rw [if_neg h]
      rfl

theorem volAvg_isSome_iff (data : List Bar) (n i : ℕ) :
    (volAvg data n i).isSome ↔ n ≤ i + 1 ∧ i < data.length := by
  unfold volAvg
  by_cases h : i + 1 < n ∨ data.length ≤ i
  · rw [if_pos h]
    simp only [Option.isSome_none, Bool.false_eq_true, false_iff]
    omega
  · rw [if_neg h]
    simp only [Option.isSome_some, true_iff]
    omega

theorem adjPrice_isSome_of (data : List Bar) (n j : ℕ) (hj : j < data.length)
    (hn : n ≤ j + 1) (hz : volAvg data n j ≠ some 0) : (adjPrice data n j).isSome := by
  have hv : (volAvg data n j).isSome := (volAvg_isSome_iff data n j).mpr ⟨hn, hj⟩
  obtain ⟨v, hveq⟩ := Option.isSome_iff_exists.mp hv
  have hvne : v ≠ 0 := fun h => hz (h ▸ hveq)
  cases hb : data.get? j with
  | none =>
    have := List.get?_eq_none.mp hb
    omega
  | some b =>
    simp only [adjPrice, hlc3, normalizedVolume, hb, hveq, Option.map_some']
    rw [if_neg hvne]
    rfl

theorem adjPrice_none_of_nv_none (data : List Bar) (n i : ℕ)
    (h : normalizedVolume data n i = none) : adjPrice data n i = none := by
  unfold adjPrice
  rw [h]
  cases hlc3 data i <;> rfl

theorem adjPrice_isSome_imp (data : List Bar) (n i : ℕ)
    (h : (adjPrice data n i).isSome) : (volAvg data n i).isSome := by
  by_contra hc
  have hv : volAvg data n i = none := Option.not_isSome_iff_eq_none.mp hc
  have hnv : normalizedVolume data n i = none := by
    unfold normalizedVolume
    rw [hv]
  rw [adjPrice_none_of_nv_none data n i hnv] at h
  simp at h

theorem trAt_nonneg (data : List Bar) (i : ℕ) (hwf : ∀ b ∈ data, b.low ≤ b.high)
    (t : ℚ) (h : trAt data i = some t) : 0 ≤ t := by
  cases i with
  | zero =>
    simp only [trAt] at h
    cases hb : data.get? 0 with
    | none => rw [hb] at h; simp at h
    | some b =>
      rw [hb, Option.map_some'] at h
      obtain rfl : b.high - b.low = t := Option.some_injective _ h
      have := hwf b (List.get?_mem hb)
      linarith
  | succ i =>
    simp only [trAt] at h
    cases h1 : data.get? (i + 1) with
    | none => rw [h1] at h; cases h2 : data.get? i <;> rw [h2] at h <;> simp at h
    | some b =>
      cases h2 : data.get? i with
      | none => rw [h1, h2] at h; simp at h
      | some pb =>
        rw [h1, h2] at h
        obtain rfl := Option.some_injective _ h
        calc (0 : ℚ) ≤ |b.high - pb.close| := abs_nonneg _
          _ ≤ max |b.high - pb.close| |b.low - pb.close| := le_max_left _ _
          _ ≤ max (b.high - b.low) (max |b.high - pb.close| |b.low - pb.close|) :=
              le_max_right _ _

theorem sumTR_nonneg (data : List Bar) (hwf : ∀ b ∈ data, b.low ≤ b.high) (k : ℕ)
    (s : ℚ) (h : sumTR data k = some s) : 0 ≤ s := by
  induction k generalizing s with
  | zero =>
    simp only [sumTR] at h
    obtain rfl : (0 : ℚ) = s := Option.some_injective _ h
    exact le_refl 0
  | succ k ih =>
    simp only [sumTR] at h
    cases h1 : sumTR data k with
    | none => rw [h1] at h; cases h2 : trAt data k <;> rw [h2] at h <;> simp at h
    | some s0 =>
      cases h2 : trAt data k with
      | none => rw [h1, h2] at h; simp at h
      | some t =>
        rw [h1, h2] at h
        obtain rfl := Option.some_injective _ h
        exact add_nonneg (ih s0 h1) (trAt_nonneg data k hwf t h2)

theorem atrW_nonneg (data : List Bar) (p : ℕ) (hwf : ∀ b ∈ data, b.low ≤ b.high) (i : ℕ)
    (a : ℚ) (h : atrW data p i = some a) : 0 ≤ a := by
  induction i generalizing a with
  | zero =>
    unfold atrW at h
    by_cases hp : p = 1
    · subst hp
      rw [if_pos rfl] at h
      cases h1 : sumTR data 1 with
      | none => rw [h1] at h; simp at h
      | some s =>
        rw [h1, Option.map_some'] at h
        obtain rfl := Option.some_injective _ h
        have hs := sumTR_nonneg data hwf 1 s h1
        positivity
    · rw [if_neg hp] at h
      simp at h
  | succ i ih =>
    unfold atrW at h
    by_cases h1 : i + 2 < p
    · rw [if_pos h1] at h
      simp at h
    · by_cases h2 : i + 2 = p
      · rw [if_neg h1, if_pos h2] at h
        cases h3 : sumTR data p with
        | none => rw [h3] at h; simp at h
        | some s =>
          rw [h3, Option.map_some'] at h
          obtain rfl := Option.some_injective _ h
          exact div_nonneg (sumTR_nonneg data hwf p s h3) (Nat.cast_nonneg p)
      · rw [if_neg h1, if_neg h2] at h
        cases h3 : atrW data p i with
        | none => rw [h3] at h; cases h4 : trAt data (i + 1) <;> rw [h4] at h <;> simp at h
        | some a0 =>
          cases h4 : trAt data (i + 1) with
          | none => rw [h3, h4] at h; simp at h
          | some t =>
            rw [h3, h4] at h
            obtain rfl := Option.some_injective _ h
            have hp1 : 1 ≤ p := by
              have hiff := (atrW_isSome_iff data p i).mp (by rw [h3]; rfl)
              exact hiff.1
            have hpq : (0 : ℚ) ≤ (p : ℚ) - 1 := by
              have : (1 : ℚ) ≤ (p : ℚ) := by exact_mod_cast hp1
              linarith
            have hnum : (0 : ℚ) ≤ a0 * ((p : ℚ) - 1) + t := by
              have := mul_nonneg (ih a0 h3) hpq
              have := trAt_nonneg data (i + 1) hwf t h4
              linarith
            exact div_nonneg hnum (Nat.cast_nonneg p)

theorem nextIntent_open_imp (cfg : StrategyConfig) (rsi sma atr : ℕ → Option ℚ)
    (close : ℕ → ℚ) (isLong : Bool) (i : ℕ) (sl tp : ℚ)
    (h : nextIntent cfg rsi sma atr close isLong i = Intent.openLong sl tp) :
    (sma i).isSome ∧ (atr i).isSome ∧ isLong = false := by
  obtain ⟨hL, s, a, hs, ha, -⟩ := (nextIntent_open_iff cfg rsi sma atr close isLong i sl tp).mp h
  exact ⟨by rw [hs]; rfl, by rw [ha]; rfl, hL⟩

theorem posAt_true_imp_earlier_ready (data : List Bar) (cfg : StrategyConfig)
    (oracle : ℕ → Bool) (i : ℕ) (h : posAt data cfg oracle i = true) :
    ∃ j, j < i ∧ (smaFn data cfg.sma_period j).isSome ∧ (atrFn data cfg.atr_period j).isSome := by
  induction i with
  | zero => simp [posAt] at h
  | succ i ih =>
    rw [posAt] at h
    cases hint : nextIntent cfg (rsiFn data cfg.rsi_period) (smaFn data cfg.sma_period)
        (atrFn data cfg.atr_period) (closeAt data) (posAt data cfg oracle i) i with
    | openLong sl tp =>
      obtain ⟨hs, ha, -⟩ := nextIntent_open_imp cfg _ _ _ _ _ i sl tp hint
      exact ⟨i, Nat.lt_succ_self i, hs, ha⟩
    | closeLong =>
      rw [hint] at h
      simp [stepState] at h
    | hold =>
      rw [hint] at h
      simp only [stepState, Bool.and_eq_true] at h
      obtain ⟨j, hj, hs, ha⟩ := ih h.1
      exact ⟨j, by omega, hs, ha⟩

/-! ### Prefix determinism: everything at bar `i` only reads bars `0..i` -/

theorem vol_congr (d1 d2 : List Bar) (i j : ℕ) (hj : j ≤ i)
    (h : ∀ m, m ≤ i → d1.get? m = d2.get? m) : vol d1 j = vol d2 j := by
  unfold vol
  rw [h j hj]

theorem closeAt_congr (d1 d2 : List Bar) (i j : ℕ) (hj : j ≤ i)
    (h : ∀ m, m ≤ i → d1.get? m = d2.get? m) : closeAt d1 j = closeAt d2 j := by
  unfold closeAt
  rw [h j hj]

theorem hlc3_congr (d1 d2 : List Bar) (i j : ℕ) (hj : j ≤ i)
    (h : ∀ m, m ≤ i → d1.get? m = d2.get? m) : hlc3 d1 j = hlc3 d2 j := by
  unfold hlc3
  rw [h j hj]

theorem volAvg_congr (d1 d2 : List Bar) (n i j : ℕ) (hj : j ≤ i)
    (h : ∀ m, m ≤ i → d1.get? m = d2.get? m) : volAvg d1 n j = volAvg d2 n j := by
  have hsum : ((List.range n).map (fun k => vol d1 (j - k))).sum
      = ((List.range n).map (fun k => vol d2 (j - k))).sum := by
    congr 1
    apply List.map_congr_left
    intro k _
    exact vol_congr d1 d2 i (j - k) (by omega) h
  cases hg : d1.get? j with
  | none =>
    have l1 := List.get?_eq_none.mp hg
    have l2 := List.get?_eq_none.mp ((h j hj).symm.trans hg)
    unfold volAvg
    rw [if_pos (Or.inr l1), if_pos (Or.inr l2)]
  | some b =>
    have l1 := get?_some_lt hg
    have l2 := get?_some_lt ((h j hj).symm.trans hg)
    by_cases hc : j + 1 < n
    · unfold volAvg
      rw [if_pos (Or.inl hc), if_pos (Or.inl hc)]
    · unfold volAvg
      rw [if_neg (by omega), if_neg (by omega), hsum]

theorem normalizedVolume_congr (d1 d2 : List Bar) (n i j : ℕ) (hj : j ≤ i)
    (h : ∀ m, m ≤ i → d1.get? m = d2.get? m) :
    normalizedVolume d1 n j = normalizedVolume d2 n j := by
  unfold normalizedVolume
  rw [volAvg_congr d1 d2 n i j hj h]
  cases volAvg d2 n j with
  | none => rfl
  | some v =>
    dsimp only
    rw [vol_congr d1 d2 i j hj h]

theorem adjPrice_congr (d1 d2 : List Bar) (n i j : ℕ) (hj : j ≤ i)
    (h : ∀ m, m ≤ i → d1.get? m = d2.get? m) : adjPrice d1 n j = adjPrice d2 n j := by
  unfold adjPrice
  rw [hlc3_congr d1 d2 i j hj h, normalizedVolume_congr d1 d2 n i j hj h]

theorem wilderGL_congr (a1 a2 : ℕ → Option ℚ) (n m : ℕ)
    (h : ∀ j, j ≤ m → a1 j = a2 j) : wilderGL a1 n m = wilderGL a2 n m := by
  induction m with
  | zero => rfl
  | succ m ih =>
    have ih2 := ih (fun j hj => h j (by omega))
    simp only [wilderGL]
    rw [h m (by omega), h (m + 1) (le_refl _), ih2]

theorem rsiFn_congr (d1 d2 : List Bar) (n i : ℕ)
    (h : ∀ m, m ≤ i → d1.get? m = d2.get? m) : rsiFn d1 n i = rsiFn d2 n i := by
  unfold rsiFn
  rw [wilderGL_congr (adjPrice d1 n) (adjPrice d2 n) n i
    (fun j hj => adjPrice_congr d1 d2 n i j hj h)]

theorem closes_getD (data : List Bar) (m : ℕ) :
    (data.map Bar.close).getD m 0 = closeAt data m := by
  unfold closeAt
  show ((data.map Bar.close).get? m).getD 0 = _
  rw [List.get?_map]

theorem smaFn_congr (d1 d2 : List Bar) (p i : ℕ)
    (h : ∀ m, m ≤ i → d1.get? m = d2.get? m) : smaFn d1 p i = smaFn d2 p i := by
  by_cases hip : i + 1 < p
  · unfold smaFn smaCore
    by_cases g1 : d1.length < p
    · by_cases g2 : d2.length < p
      · rw [if_pos g1, if_pos g2]
      · rw [if_pos g1, if_neg g2, if_pos (Or.inl hip)]
    · by_cases g2 : d2.length < p
      · rw [if_neg g1, if_pos g2, if_pos (Or.inl hip)]
      · rw [if_neg g1, if_neg g2, if_pos (Or.inl hip), if_pos (Or.inl hip)]
  · cases hg : d1.get? i with
    | none =>
      have l1 := List.get?_eq_none.mp hg
      have l2 := List.get?_eq_none.mp ((h i (le_refl _)).symm.trans hg)
      unfold smaFn smaCore
      by_cases g1 : d1.length < p
      · by_cases g2 : d2.length < p
        · rw [if_pos g1, if_pos g2]
        · rw [if_pos g1, if_neg g2, if_pos (Or.inr (by rw [List.length_map]; omega))]
      · by_cases g2 : d2.length < p
        · rw [if_neg g1, if_pos g2, if_pos (Or.inr (by rw [List.length_map]; omega))]
        · rw [if_neg g1, if_neg g2, if_pos (Or.inr (by rw [List.length_map]; omega)),
            if_pos (Or.inr (by rw [List.length_map]; omega))]
    | some b =>
      have l1 := get?_some_lt hg
      have l2 := get?_some_lt ((h i (le_refl _)).symm.trans hg)
      have g1 : ¬d1.length < p := by omega
      have g2 : ¬d2.length < p := by omega
      have w1 : ¬(i + 1 < p ∨ (d1.map Bar.close).length ≤ i) := by
        rw [List.length_map]
        omega
      have w2 : ¬(i + 1 < p ∨ (d2.map Bar.close).length ≤ i) := by
        rw [List.length_map]
        omega
      unfold smaFn smaCore
      rw [if_neg g1, if_neg w1, if_neg g2, if_neg w2]
      have hsum : ((List.range p).map (fun k => (d1.map Bar.close).getD (i - k) 0)).sum
          = ((List.range p).map (fun k => (d2.map Bar.close).getD (i - k) 0)).sum := by
        congr 1
        apply List.map_congr_left
        intro k _
        rw [closes_getD, closes_getD]
        exact closeAt_congr d1 d2 i (i - k) (by omega) h
      rw [hsum]

theorem trAt_congr (d1 d2 : List Bar) (i m : ℕ) (hm : m ≤ i)
    (h : ∀ j, j ≤ i → d1.get? j = d2.get? j) : trAt d1 m = trAt d2 m := by
  cases m with
  | zero =>
    simp only [trAt]
    rw [h 0 (by omega)]
  | succ m =>
    simp only [trAt]
    rw [h (m + 1) (by omega), h m (by omega)]

theorem sumTR_congr (d1 d2 : List Bar) (i k : ℕ) (hk : k ≤ i + 1)
    (h : ∀ j, j ≤ i → d1.get? j = d2.get? j) : sumTR d1 k = sumTR d2 k := by
  induction k with
  | zero => rfl
  | succ k ih =>
    simp only [sumTR]
    rw [ih (by omega), trAt_congr d1 d2 i k (by omega) h]

theorem atrW_congr (d1 d2 : List Bar) (p i m : ℕ) (hm : m ≤ i)
    (h : ∀ j, j ≤ i → d1.get? j = d2.get? j) : atrW d1 p m = atrW d2 p m := by
  induction m with
  | zero =>
    simp only [atrW]
    by_cases hp : p = 1
    · rw [if_pos hp, if_pos hp, sumTR_congr d1 d2 i 1 (by omega) h]
    · rw [if_neg hp, if_neg hp]
  | succ m ih =>
    simp only [atrW]
    by_cases h1 : m + 2 < p
    · rw [if_pos h1, if_pos h1]
    · by_cases h2 : m + 2 = p
      · rw [if_neg h1, if_neg h1, if_pos h2, if_pos h2,
          sumTR_congr d1 d2 i p (by omega) h]
      · rw [if_neg h1, if_neg h1, if_neg h2, if_neg h2, ih (by omega),
          trAt_congr d1 d2 i (m + 1) (by omega) h]

theorem nextIntent_congr (cfg : StrategyConfig) (r1 r2 s1 s2 a1 a2 : ℕ → Option ℚ)
    (c1 c2 : ℕ → ℚ) (pos : Bool) (i : ℕ)
    (hr : ∀ j, j ≤ i → r1 j = r2 j) (hs : s1 i = s2 i) (ha : a1 i = a2 i)
    (hc : c1 i = c2 i) :
    nextIntent cfg r1 s1 a1 c1 pos i = nextIntent cfg r2 s2 a2 c2 pos i := by
  have hcr1 : crossover r1 (constSeries cfg.buy_threshold) i
      = crossover r2 (constSeries cfg.buy_threshold) i := by
    cases i with
    | zero => rfl
    | succ j =>
      simp only [crossover]
      rw [hr j (by omega), hr (j + 1) (le_refl _)]
  have hcr2 : crossover (constSeries cfg.sell_threshold) r1 i
      = crossover (constSeries cfg.sell_threshold) r2 i := by
    cases i with
    | zero => rfl
    | succ j =>
      simp only [crossover]
      rw [hr j (by omega), hr (j + 1) (le_refl _)]
  unfold nextIntent
  rw [hs, ha, hc, hcr1, hcr2]

/-! ### Concrete evaluations on the demo market -/

theorem demo_rsi_one : rsiFn demoData 1 1 = some 0 := by
  norm_num [rsiFn, wilderGL, adjPrice, hlc3, normalizedVolume, volAvg, vol, demoData, rsiOfGL,
    List.range_succ, List.sum_cons, List.sum_append, max_def]

theorem demo_rsi_two : rsiFn demoData 1 2 = some 100 := by
  norm_num [rsiFn, wilderGL, adjPrice, hlc3, normalizedVolume, volAvg, vol, demoData, rsiOfGL,
    List.range_succ, List.sum_cons, List.sum_append, max_def]

theorem demo_rsi_three : rsiFn demoData 1 3 = some 0 := by
  norm_num [rsiFn, wilderGL, adjPrice, hlc3, normalizedVolume, volAvg, vol, demoData, rsiOfGL,
    List.range_succ, List.sum_cons, List.sum_append, max_def]

theorem demo_sma_two : smaFn demoData 2 2 = some (25 / 2) := by
  norm_num [smaFn, smaCore, demoData, List.range_succ, List.sum_cons, List.sum_append]

theorem demo_atr_two : atrFn demoData 1 2 = some 15 := by
  norm_num [atrFn, atrW, sumTR, trAt, demoData, max_def, abs]

theorem demo_close_two : closeAt demoData 2 = 20 := by
  norm_num [closeAt, demoData]

set_option maxHeartbeats 1000000 in
theorem demo_pos_two : posAt demoData demoConfig noEngineClose 2 = false := by
  norm_num [posAt, stepState, intentAt, nextIntent, crossover, constSeries, demoConfig,
    noEngineClose, rsiFn, wilderGL, adjPrice, hlc3, normalizedVolume, volAvg, vol, demoData,
    rsiOfGL, smaFn, smaCore, atrFn, atrW, sumTR, trAt, closeAt,
    List.range_succ, List.sum_cons, List.sum_append, max_def, abs]

set_option maxHeartbeats 2000000 in
theorem demo_pos_three : posAt demoData demoConfig noEngineClose 3 = true := by
  norm_num [posAt, stepState, intentAt, nextIntent, crossover, constSeries, demoConfig,
    noEngineClose, rsiFn, wilderGL, adjPrice, hlc3, normalizedVolume, volAvg, vol, demoData,
    rsiOfGL, smaFn, smaCore, atrFn, atrW, sumTR, trAt, closeAt,
    List.range_succ, List.sum_cons, List.sum_append, max_def, abs]

set_option maxHeartbeats 2000000 in
theorem demo_intent_two :
    intentAt demoData demoConfig noEngineClose 2 = Intent.openLong (-5 / 2) 95 := by
  norm_num [posAt, stepState, intentAt, nextIntent, crossover, constSeries, demoConfig,
    noEngineClose, rsiFn, wilderGL, adjPrice, hlc3, normalizedVolume, volAvg, vol, demoData,
    rsiOfGL, smaFn, smaCore, atrFn, atrW, sumTR, trAt, closeAt,
    List.range_succ, List.sum_cons, List.sum_append, max_def, abs]

/-! ### The claims -/

/-- C1: with the position FLAT, the signal evaluator emits an open-long intent
at bar `i` exactly when SMA and ATR are defined there (the warm-up gate), the
RSI crosses above `buy_threshold` (previous value `≤` the threshold, current
value `>` it, both defined — false if either is undefined) and the close is
above the SMA; the emitted intent's stop-loss is
`close[i] - atr_multiplier_sl * atr[i]` and its take-profit is
`close[i] + atr_multiplier_tp * atr[i]`.  If any precondition fails, no
open-long intent is emitted at bar `i`. -/
theorem C1_open_long_rule (cfg : StrategyConfig) (rsi sma atr : ℕ → Option ℚ)
    (close : ℕ → ℚ) (i : ℕ) (sl tp : ℚ) :
    nextIntent cfg rsi sma atr close false i = Intent.openLong sl tp ↔
      ∃ s a, sma i = some s ∧ atr i = some a ∧
        CrossAbove rsi cfg.buy_threshold i ∧ s < close i ∧
        sl = close i - cfg.atr_multiplier_sl * a ∧
        tp = close i + cfg.atr_multiplier_tp * a := by
  rw [nextIntent_open_iff]
  simp only [crossover_const_right_iff, true_and]

/-- C1 witness: on the demo market the evaluator, flat at bar 2, emits exactly
the open intent with stop-loss `20 - 1.5 * 15` and take-profit `20 + 5 * 15`. -/
theorem C1_open_long_rule_witness :
    nextIntent demoConfig (rsiFn demoData 1) (smaFn demoData 2) (atrFn demoData 1)
      (closeAt demoData) false 2 = Intent.openLong (-5 / 2) 95 := by
  apply (C1_open_long_rule demoConfig (rsiFn demoData 1) (smaFn demoData 2) (atrFn demoData 1)
      (closeAt demoData) 2 (-5 / 2) 95).mpr
  refine ⟨25 / 2, 15, demo_sma_two, demo_atr_two,
    ⟨1, 0, 100, rfl, demo_rsi_one, demo_rsi_two, by norm_num [demoConfig],
      by norm_num [demoConfig]⟩, ?_, ?_, ?_⟩
  · rw [demo_close_two]
    norm_num
  · rw [demo_close_two]
    norm_num [demoConfig]
  · rw [demo_close_two]
    norm_num [demoConfig]

/-- C3: the warm-up gate at bar `i` holds exactly when both the SMA and the ATR
values at `i` are defined — the RSI plays no part in it — and on a bar where
the gate fails the evaluator emits no intent at all, whatever the position
state. -/
theorem C3_warmup_gate (cfg : StrategyConfig) (rsi sma atr : ℕ → Option ℚ)
    (close : ℕ → ℚ) (isLong : Bool) (i : ℕ) :
    (ready sma atr i = true ↔ (sma i).isSome ∧ (atr i).isSome) ∧
      (ready sma atr i = false →
        nextIntent cfg rsi sma atr close isLong i = Intent.hold) := by
  constructor
  · unfold ready
    cases sma i <;> cases atr i <;> simp
  · exact nextIntent_hold_of_not_ready cfg rsi sma atr close isLong i

/-- C3 witness: at bar 0 of the demo market the SMA is still undefined, the
gate fails, and the evaluator holds. -/
theorem C3_warmup_gate_witness :
    nextIntent demoConfig (rsiFn demoData 1) (smaFn demoData 2) (atrFn demoData 1)
      (closeAt demoData) false 0 = Intent.hold :=
  (C3_warmup_gate demoConfig (rsiFn demoData 1) (smaFn demoData 2) (atrFn demoData 1)
      (closeAt demoData) false 0).2
    (by norm_num [ready, smaFn, smaCore, demoData])

/-- C4: per bar the evaluator returns a single intent and evaluates the open
rule before the close rule: an open-long intent implies the state was FLAT, a
close-long intent implies the state was LONG, and whenever the state is FLAT
and the open rule's preconditions all hold, the outcome is the open intent
with its ATR bracket (the close rule is never consulted first). -/
theorem C4_state_monotonic (cfg : StrategyConfig) (rsi sma atr : ℕ → Option ℚ)
    (close : ℕ → ℚ) (isLong : Bool) (i : ℕ) (s a : ℚ) :
    ((nextIntent cfg rsi sma atr close isLong i).isOpen = true → isLong = false) ∧
      (nextIntent cfg rsi sma atr close isLong i = Intent.closeLong → isLong = true) ∧
      (isLong = false → sma i = some s → atr i = some a →
        crossover rsi (constSeries cfg.buy_threshold) i = true → s < close i →
        nextIntent cfg rsi sma atr close isLong i =
          Intent.openLong (close i - cfg.atr_multiplier_sl * a)
            (close i + cfg.atr_multiplier_tp * a)) := by
  refine ⟨?_, ?_, ?_⟩
  · intro h
    cases hint : nextIntent cfg rsi sma atr close isLong i with
    | openLong sl tp => exact (nextIntent_open_imp cfg rsi sma atr close isLong i sl tp hint).2.2
    | closeLong => rw [hint] at h; simp [Intent.isOpen] at h
    | hold => rw [hint] at h; simp [Intent.isOpen] at h
  · intro h
    exact ((nextIntent_close_iff cfg rsi sma atr close isLong i).mp h).1
  · rintro rfl hs ha hcr hlt
    exact (nextIntent_open_iff cfg rsi sma atr close false i _ _).mpr
      ⟨rfl, s, a, hs, ha, hcr, hlt, rfl, rfl⟩

/-- C4 witness: on the demo market at bar 2, with the open preconditions all
holding and the state FLAT, the outcome is the open intent with its bracket. -/
theorem C4_state_monotonic_witness :
    nextIntent demoConfig (rsiFn demoData 1) (smaFn demoData 2) (atrFn demoData 1)
      (closeAt demoData) false 2 =
      Intent.openLong (closeAt demoData 2 - demoConfig.atr_multiplier_sl * 15)
        (closeAt demoData 2 + demoConfig.atr_multiplier_tp * 15) := by
  apply (C4_state_monotonic demoConfig (rsiFn demoData 1) (smaFn demoData 2) (atrFn demoData 1)
      (closeAt demoData) false 2 (25 / 2) 15).2.2 rfl demo_sma_two demo_atr_two
  · apply (crossover_const_right_iff (rsiFn demoData 1) demoConfig.buy_threshold 2).mpr
    exact ⟨1, 0, 100, rfl, demo_rsi_one, demo_rsi_two, by norm_num [demoConfig],
      by norm_num [demoConfig]⟩
  · rw [demo_close_two]
    norm_num

/-- C5: for every period at least 1 and every close series strictly shorter
than the period, `safe_sma` returns the all-undefined series of the same
length — being a total function it raises nothing and computes no partial
average. -/
theorem C5_safe_sma_guard (close : List ℚ) (period : ℕ) (_hp : 1 ≤ period)
    (hlen : close.length < period) :
    safe_sma close period = List.replicate close.length none := by
  unfold safe_sma
  rw [if_pos hlen]

/-- C5 witness: two closes with period 3 give two undefined entries. -/
theorem C5_safe_sma_guard_witness :
    safe_sma [(1 : ℚ), 2] 3 = List.replicate 2 none := by
  have h := C5_safe_sma_guard [(1 : ℚ), 2] 3 (by norm_num) (by norm_num)
  simpa using h

/-- C2: in a run of the strategy over a bar list (under any engine-close
behaviour), at every in-range bar at which the position is LONG the evaluator
emits the single full-close intent exactly when the RSI crosses under
`sell_threshold` (previous value `≥` the threshold, current value `<` it, both
defined); when LONG and the crossunder fails, no close intent is emitted.
(The warm-up gate is necessarily satisfied at such a bar: a LONG state can
only have been entered through an open intent, which required the gate at an
earlier bar, and gate-definedness only grows with the index inside the data.) -/
theorem C2_close_long_rule (data : List Bar) (cfg : StrategyConfig) (oracle : ℕ → Bool)
    (i : ℕ) (hi : i < data.length) (hpos : posAt data cfg oracle i = true) :
    intentAt data cfg oracle i = Intent.closeLong ↔
      CrossBelow (rsiFn data cfg.rsi_period) cfg.sell_threshold i := by
  obtain ⟨j, hj, hsj, haj⟩ := posAt_true_imp_earlier_ready data cfg oracle i hpos
  obtain ⟨hs1, hs2, hs3⟩ := (smaFn_isSome_iff data cfg.sma_period j).mp hsj
  obtain ⟨ha1, ha2, ha3⟩ := (atrW_isSome_iff data cfg.atr_period j).mp haj
  have hsi : (smaFn data cfg.sma_period i).isSome :=
    (smaFn_isSome_iff data cfg.sma_period i).mpr ⟨hs1, by omega, hi⟩
  have hai : (atrFn data cfg.atr_period i).isSome :=
    (atrW_isSome_iff data cfg.atr_period i).mpr ⟨ha1, by omega, hi⟩
  obtain ⟨s, hs⟩ := Option.isSome_iff_exists.mp hsi
  obtain ⟨a, ha⟩ := Option.isSome_iff_exists.mp hai
  unfold intentAt
  rw [nextIntent_close_iff]
  constructor
  · rintro ⟨-, -, -, -, -, hcr⟩
    exact (crossover_const_left_iff (rsiFn data cfg.rsi_period) cfg.sell_threshold i).mp hcr
  · intro hcb
    exact ⟨hpos, s, a, hs, ha,
      (crossover_const_left_iff (rsiFn data cfg.rsi_period) cfg.sell_threshold i).mpr hcb⟩

/-- C2 witness: in the demo run the position is LONG at bar 3, the RSI falls
from 100 through the sell threshold to 0, and the close intent is emitted. -/
theorem C2_close_long_rule_witness :
    intentAt demoData demoConfig noEngineClose 3 = Intent.closeLong :=
  (C2_close_long_rule demoData demoConfig noEngineClose 3 (by norm_num [demoData])
      demo_pos_three).mpr
    ⟨2, 100, 0, rfl, demo_rsi_two, demo_rsi_three, by norm_num [demoConfig],
      by norm_num [demoConfig]⟩

/-- C6: a zero or undefined rolling volume average at bar `i` makes the
normalized volume, the adjusted price and the RSI at `i` undefined — never an
error or an infinite value (all the model's functions are total) — and a zero
Wilder average loss makes the RSI exactly 100. -/
theorem C6_division_by_zero (data : List Bar) (n i : ℕ) (g : ℚ)
    (h : volAvg data n i = none ∨ volAvg data n i = some 0) :
    normalizedVolume data n i = none ∧ adjPrice data n i = none ∧
      rsiFn data n i = none ∧ rsiOfGL (some (g, 0)) = some 100 := by
  have hnv : normalizedVolume data n i = none := by
    unfold normalizedVolume
    rcases h with h | h
    · rw [h]
    · rw [h]
      dsimp only
      rw [if_pos rfl]
  have hadj := adjPrice_none_of_nv_none data n i hnv
  have hrsi : rsiFn data n i = none := by
    unfold rsiFn
    rw [wilderGL_none_of_adj_none (adjPrice data n) n i hadj]
    rfl
  refine ⟨hnv, hadj, hrsi, ?_⟩
  unfold rsiOfGL
  dsimp only
  rw [if_pos rfl]

/-- C6 witness: one zero-volume bar gives a zero rolling average; the
normalized volume, adjusted price and RSI at bar 0 are undefined, and a zero
average loss yields RSI 100. -/
theorem C6_division_by_zero_witness :
    normalizedVolume [⟨1, 1, 1, 1, 0⟩] 1 0 = none ∧
      adjPrice [⟨1, 1, 1, 1, 0⟩] 1 0 = none ∧
      rsiFn [⟨1, 1, 1, 1, 0⟩] 1 0 = none ∧ rsiOfGL (some (7, 0)) = some 100 :=
  C6_division_by_zero [⟨1, 1, 1, 1, 0⟩] 1 0 7
    (Or.inr (by norm_num [volAvg, vol, List.range_succ]))

/-- C7: for every input and every period configuration the RSI, SMA and ATR
series each have exactly the input's length — index alignment is preserved
even when a window exceeds the available data. -/
theorem C7_length_alignment (data : List Bar) (n p q : ℕ) :
    (custom_rsi data n).length = data.length ∧
      (safe_sma (data.map Bar.close) p).length = data.length ∧
      (ta_atr data q).length = data.length := by
  refine ⟨?_, ?_, ?_⟩
  · unfold custom_rsi
    rw [List.length_map, List.length_range]
  · unfold safe_sma
    by_cases hl : (data.map Bar.close).length < p
    · rw [if_pos hl, List.length_replicate, List.length_map]
    · rw [if_neg hl, List.length_map, List.length_range, List.length_map]
  · unfold ta_atr
    rw [List.length_map, List.length_range]

/-- C8: exactly the first `length` entries of the volume-weighted RSI are
undefined: when every in-window rolling volume average is non-zero, `RSI[i]`
is defined precisely for `length ≤ i` within the data. -/
theorem C8_rsi_warmup (data : List Bar) (n i : ℕ) (hn : 1 ≤ n)
    (hz : ∀ j, j ≤ i → n - 1 ≤ j → volAvg data n j ≠ some 0) :
    (rsiFn data n i).isSome ↔ n ≤ i ∧ i < data.length := by
  unfold rsiFn
  rw [rsiOfGL_isSome]
  constructor
  · intro h
    obtain ⟨h1, h2, h3⟩ := wilderGL_isSome_imp (adjPrice data n) n i h
    have hva := adjPrice_isSome_imp data n i h3
    obtain ⟨-, hlen⟩ := (volAvg_isSome_iff data n i).mp hva
    exact ⟨h1, hlen⟩
  · rintro ⟨h1, h2⟩
    apply wilderGL_isSome_of (adjPrice data n) n i hn h1
    intro j hj1 hj2
    exact adjPrice_isSome_of data n j (by omega) (by omega) (hz j hj2 hj1)

/-- C8 witness: with period 1 on the four demo bars, the RSI at bar 2 is
defined and the warm-up bound `1 ≤ 2 < 4` holds. -/
theorem C8_rsi_warmup_witness :
    (rsiFn demoData 1 2).isSome ↔ 1 ≤ 2 ∧ 2 < demoData.length :=
  C8_rsi_warmup demoData 1 2 (by norm_num)
    (by
      intro j hj1 hj2
      interval_cases j <;> norm_num [volAvg, vol, demoData, List.range_succ])

/-- C9: two bar histories agreeing on bars `0..i` yield identical RSI, SMA and
ATR values at every index up to `i`, and — for the same position state — the
identical intent at bar `i`: no indicator value or decision reads bars after
`i`. -/
theorem C9_no_lookahead (d1 d2 : List Bar) (cfg : StrategyConfig) (pos : Bool) (i : ℕ)
    (h : ∀ m, m ≤ i → d1.get? m = d2.get? m) :
    (∀ j, j ≤ i → rsiFn d1 cfg.rsi_period j = rsiFn d2 cfg.rsi_period j ∧
        smaFn d1 cfg.sma_period j = smaFn d2 cfg.sma_period j ∧
        atrFn d1 cfg.atr_period j = atrFn d2 cfg.atr_period j) ∧
      nextIntent cfg (rsiFn d1 cfg.rsi_period) (smaFn d1 cfg.sma_period)
          (atrFn d1 cfg.atr_period) (closeAt d1) pos i =
        nextIntent cfg (rsiFn d2 cfg.rsi_period) (smaFn d2 cfg.sma_period)
          (atrFn d2 cfg.atr_period) (closeAt d2) pos i := by
  have hsub : ∀ j, j ≤ i → ∀ m, m ≤ j → d1.get? m = d2.get? m :=
    fun j hj m hm => h m (le_trans hm hj)
  refine ⟨fun j hj => ⟨rsiFn_congr d1 d2 cfg.rsi_period j (hsub j hj),
    smaFn_congr d1 d2 cfg.sma_period j (hsub j hj),
    atrW_congr d1 d2 cfg.atr_period j j (le_refl _) (hsub j hj)⟩, ?_⟩
  exact nextIntent_congr cfg _ _ _ _ _ _ _ _ pos i
    (fun j hj => rsiFn_congr d1 d2 cfg.rsi_period j (hsub j hj))
    (smaFn_congr d1 d2 cfg.sma_period i h)
    (atrW_congr d1 d2 cfg.atr_period i i (le_refl _) h)
    (closeAt_congr d1 d2 i i (le_refl _) h)

/-- C9 witness: a two-bar history and a three-bar history agreeing on bars 0
and 1 produce the same intent at bar 1. -/
theorem C9_no_lookahead_witness :
    nextIntent demoConfig (rsiFn demoTwo 1) (smaFn demoTwo 2) (atrFn demoTwo 1)
      (closeAt demoTwo) false 1 =
      nextIntent demoConfig (rsiFn demoAlt 1) (smaFn demoAlt 2) (atrFn demoAlt 1)
        (closeAt demoAlt) false 1 :=
  (C9_no_lookahead demoTwo demoAlt demoConfig false 1
    (by
      intro m hm
      interval_cases m <;> rfl)).2

/-- C10: every open-long intent the run ever emits carries a defined stop-loss
and take-profit bracketing the close, `sl ≤ close[i] ≤ tp`, both inequalities
strict whenever `atr[i] > 0` — because the warm-up gate guarantees `atr[i]` is
defined (and the true range of well-formed bars keeps it nonnegative) and the
multipliers are positive. -/
theorem C10_bracket_invariant (data : List Bar) (cfg : StrategyConfig) (oracle : ℕ → Bool)
    (i : ℕ) (sl tp : ℚ) (hsl : 0 < cfg.atr_multiplier_sl) (htp : 0 < cfg.atr_multiplier_tp)
    (hwf : ∀ b ∈ data, b.low ≤ b.high)
    (h : intentAt data cfg oracle i = Intent.openLong sl tp) :
    ∃ a, atrFn data cfg.atr_period i = some a ∧ 0 ≤ a ∧
      sl ≤ closeAt data i ∧ closeAt data i ≤ tp ∧
      (0 < a → sl < closeAt data i ∧ closeAt data i < tp) := by
  unfold intentAt at h
  obtain ⟨-, s, a, hs, ha, -, -, hslv, htpv⟩ :=
    (nextIntent_open_iff cfg (rsiFn data cfg.rsi_period) (smaFn data cfg.sma_period)
      (atrFn data cfg.atr_period) (closeAt data) (posAt data cfg oracle i) i sl tp).mp h
  have ha0 : 0 ≤ a := atrW_nonneg data cfg.atr_period hwf i a ha
  subst hslv
  subst htpv
  have hm1 : 0 ≤ cfg.atr_multiplier_sl * a := mul_nonneg (le_of_lt hsl) ha0
  have hm2 : 0 ≤ cfg.atr_multiplier_tp * a := mul_nonneg (le_of_lt htp) ha0
  refine ⟨a, ha, ha0, by linarith, by linarith, ?_⟩
  intro hapos
  have hp1 : 0 < cfg.atr_multiplier_sl * a := mul_pos hsl hapos
  have hp2 : 0 < cfg.atr_multiplier_tp * a := mul_pos htp hapos
  constructor <;> linarith

/-- C10 witness: the open intent of the demo run at bar 2 brackets the close
`20` between `-5/2` and `95`. -/
theorem C10_bracket_invariant_witness :
    (-5 / 2 : ℚ) ≤ closeAt demoData 2 ∧ closeAt demoData 2 ≤ 95 := by
  obtain ⟨a, ha, h0, h1, h2, h3⟩ :=
    C10_bracket_invariant demoData demoConfig noEngineClose 2 (-5 / 2) 95
      (by norm_num [demoConfig]) (by norm_num [demoConfig])
      (by
        intro b hb
        simp only [demoData, List.mem_cons, List.not_mem_nil, or_false] at hb
        rcases hb with rfl | rfl | rfl | rfl <;> norm_num)
      demo_intent_two
  exact ⟨h1, h2⟩

end TradingBot
